import Mathlib

/-!
Verification of the personal-assistant orchestration core against its design
specification.  The Python sources are shallowly embedded: strings are
`List Char`, the completion service is a function from (prompt, history) to
(output text, new history records), and the orchestration loop of
`src/core/assistant.py` becomes a fuel-indexed recursion whose fuel is the
hard-coded `max_turns` bound.  Regular-expression operations used by the code
(`re.search` with pattern `</?done\s*>`, `re.findall` with pattern
`<step>(.*?)</step>`) are embedded as executable scanning functions over
character lists.
-/

/-- Whitespace set of Python's `str.strip` / regex `\s`, restricted to ASCII:
space, tab, newline, carriage return, vertical tab, form feed. -/
def isPyWs (c : Char) : Bool :=
  c = ' ' || c = '\t' || c = '\n' || c = '\r' || c = '\x0b' || c = '\x0c'

/-- Embedding of Python's `str.strip()`: remove leading and trailing
whitespace. -/
def pyStrip (s : List Char) : List Char :=
  ((s.dropWhile isPyWs).reverse.dropWhile isPyWs).reverse

/-- Character-wise ASCII lowercasing, as used to model case-insensitive
matching (`re.IGNORECASE`) and Python's `str.lower()` on ASCII text. -/
def lowerList (s : List Char) : List Char :=
  s.map Char.toLower

/-- Embedding of `\s*`: skip a maximal run of whitespace characters. -/
def skipWs : List Char → List Char
  | [] => []
  | c :: r => if isPyWs c then skipWs r else c :: r

/-- After the optional slash of the pattern `</?done\s*>`, match the literal
word `done` case-insensitively, then `\s*`, then `>`. -/
def doneWordThen (rest : List Char) : Bool :=
  match rest with
  | a :: b :: c :: d :: r2 =>
      if a.toLower = 'd' ∧ b.toLower = 'o' ∧ c.toLower = 'n' ∧ d.toLower = 'e' then
        match skipWs r2 with
        | g :: _ => decide (g = '>')
        | [] => false
      else false
  | _ => false

/-- Does a match of the regex `</?done\s*>` (with `re.IGNORECASE`) start at
the head of `s`?  This is the `done_pattern` of `src/core/assistant.py`. -/
def isDoneTagAt (s : List Char) : Bool :=
  match s with
  | c0 :: c1 :: r1 =>
      decide (c0 = '<') && doneWordThen (if c1 = '/' then r1 else c1 :: r1)
  | _ => false

/-- Embedding of `done_pattern.search(response)`: the pattern `</?done\s*>`
matches somewhere in the string. -/
def doneSearch : List Char → Bool
  | [] => false
  | c :: r => isDoneTagAt (c :: r) || doneSearch r

/-- Embedding of the Python slice `response[6:-7]`: drop the first 6
characters and the last 7 characters. -/
def slice6m7 (s : List Char) : List Char :=
  (s.drop 6).take (s.length - 13)

/-- Result of one completion-service call: the model's raw output text and
the new exchange records (`result.new_messages()`) to append to history. -/
structure AskResult (ρ : Type) where
  output : List Char
  newMessages : List ρ
deriving DecidableEq

/-- The completion service as seen by `PersonalAssistant.run`: a function of
the current prompt and the conversation history. -/
def Ask (ρ : Type) : Type :=
  List Char → List ρ → AskResult ρ

/-- Observable outcome of one invocation of `run`: the returned answer, the
final conversation history, and the number of completion-service calls
performed. -/
structure RunState (ρ : Type) where
  answer : List Char
  history : List ρ
  calls : Nat
deriving DecidableEq

/-- The hard-coded turn budget `max_turns = 10` of
`PersonalAssistant.run`. -/
def max_turns : Nat := 10

/-- Embedding of `self.conversation_history.extend(result.new_messages())`
from `PersonalAssistant._store_interaction`. -/
def store_interaction {ρ : Type} (history : List ρ) (newMessages : List ρ) : List ρ :=
  history ++ newMessages

/-- Embedding of the `for turn in range(1, max_turns+1)` loop body of
`PersonalAssistant.run`.  Each iteration calls the service, stores the new
exchange records, trims the output, and either returns
`response[6:-7].strip()` when `done_pattern.search(response)` fires, or
feeds the trimmed response back as the next prompt.  When fuel runs out the
last trimmed response is returned as-is.  The two `finditer` loops of the
source only print log lines and change no state, so they have no
counterpart here. -/
def runLoop {ρ : Type} (ask : Ask ρ) : Nat → List Char → List ρ → List Char → Nat → RunState ρ
  | 0, _, history, lastResponse, calls => ⟨lastResponse, history, calls⟩
  | Nat.succ f, prompt, history, _, calls =>
      if doneSearch (pyStrip (ask prompt history).output) then
        ⟨pyStrip (slice6m7 (pyStrip (ask prompt history).output)),
         store_interaction history (ask prompt history).newMessages, calls + 1⟩
      else
        runLoop ask f (pyStrip (ask prompt history).output)
          (store_interaction history (ask prompt history).newMessages)
          (pyStrip (ask prompt history).output) (calls + 1)

/-- Embedding of `PersonalAssistant.run(user_input)`: start with
`prompt := user_input`, `response := ""`, zero calls, and iterate at most
`max_turns` times. -/
def run {ρ : Type} (ask : Ask ρ) (user_input : List Char) (history0 : List ρ) : RunState ρ :=
  runLoop ask max_turns user_input history0 [] 0

/-- Embedding of the `PersonalAssistant` object state relevant to the loop:
the name-keyed agent registry stored by `__init__` and the completion
service.  The source's `run` never reads `self.agents`. -/
structure PersonalAssistant (ρ : Type) where
  agents : List (List Char)
  ask : Ask ρ

/-- Method form of `run` on the assistant object. -/
def PersonalAssistant.runPA {ρ : Type} (a : PersonalAssistant ρ) (u : List Char)
    (h0 : List ρ) : RunState ρ :=
  run a.ask u h0

/-- Per-call exchange-record lists produced along the execution path of
`runLoop`, in call order.  Mirrors `runLoop` exactly. -/
def callRecords {ρ : Type} (ask : Ask ρ) : Nat → List Char → List ρ → List (List ρ)
  | 0, _, _ => []
  | Nat.succ f, prompt, history =>
      if doneSearch (pyStrip (ask prompt history).output) then
        [(ask prompt history).newMessages]
      else
        (ask prompt history).newMessages ::
          callRecords ask f (pyStrip (ask prompt history).output)
            (store_interaction history (ask prompt history).newMessages)

/-- Prompt and history reached after `n` self-feedback turns (trimmed
response becomes the next prompt, records are appended).  After `n ≥ 1`
turns the first component is the trimmed output of the n-th
completion-service call. -/
def finalState {ρ : Type} (ask : Ask ρ) : Nat → List Char → List ρ → List Char × List ρ
  | 0, prompt, history => (prompt, history)
  | Nat.succ f, prompt, history =>
      finalState ask f (pyStrip (ask prompt history).output)
        (store_interaction history (ask prompt history).newMessages)

/-- Prefix test on character lists: `leadsWith pat s` holds when `pat` is an
initial segment of `s`. -/
def leadsWith : List Char → List Char → Bool
  | [], _ => true
  | _ :: _, [] => false
  | a :: as, b :: bs => a == b && leadsWith as bs

/-- Contiguous-substring test on character lists. -/
def occursIn (pat : List Char) : List Char → Bool
  | [] => leadsWith pat []
  | c :: r => leadsWith pat (c :: r) || occursIn pat r

/-- The literal open wrapper token `<done>` in lowercase. -/
def openTag : List Char := ['<', 'd', 'o', 'n', 'e', '>']

/-- The literal close wrapper token `</done>` in lowercase. -/
def closeTag : List Char := ['<', '/', 'd', 'o', 'n', 'e', '>']

/-- A letter-case variant of the open wrapper token `<done>`: the four
letters may each be in either case, the punctuation is fixed. -/
def isOpenVariant (o : List Char) : Prop :=
  ∃ a b c d, o = ['<', a, b, c, d, '>'] ∧
    a.toLower = 'd' ∧ b.toLower = 'o' ∧ c.toLower = 'n' ∧ d.toLower = 'e'

/-- A letter-case variant of the close wrapper token `</done>`. -/
def isCloseVariant (cl : List Char) : Prop :=
  ∃ a b c d, cl = ['<', '/', a, b, c, d, '>'] ∧
    a.toLower = 'd' ∧ b.toLower = 'o' ∧ c.toLower = 'n' ∧ d.toLower = 'e'

/-- Modelled from the spec: the Completion Marker criterion of section 4.3
(a response is a marker iff, after trimming, it starts with an open wrapper
and ends with the matching close wrapper, both case-insensitive).  The
orchestration loop's code contains no such anchored check, so this
definition follows the spec's words and is compared against the code's
`doneSearch`. -/
def specMarker (s : List Char) : Prop :=
  (∃ o t, isOpenVariant o ∧ s = o ++ t) ∧ (∃ cl t, isCloseVariant cl ∧ s = t ++ cl)

/-- First line of a text, as in line-oriented directive matching. -/
def firstLine (s : List Char) : List Char :=
  s.takeWhile (fun c => c ≠ '\n')

/-- The keyword `delegate_to` of the delegation grammar. -/
def delegateKw : List Char :=
  ['d', 'e', 'l', 'e', 'g', 'a', 't', 'e', '_', 't', 'o']

/-- Modelled from the spec: the Delegation Directive grammar of section 4.2
(line-oriented, case-insensitive keyword; the agent name is the trimmed
text after the first colon of the first line).  `PersonalAssistant.run`
contains no code that parses or dispatches this grammar — its
`agent_pattern` regex is used only to print a log line — so the grammar is
taken from the spec's words and used to delimit the responses the
delegation claims quantify over. -/
def delegationDirective (s : List Char) : Option (List Char) :=
  let l := firstLine s
  let before := l.takeWhile (fun c => c ≠ ':')
  let after := (l.dropWhile (fun c => c ≠ ':')).drop 1
  if l.any (fun c => c = ':') && decide (lowerList (pyStrip before) = delegateKw) then
    some (pyStrip after)
  else
    Option.none

/-- The literal open token `<step>` of the planner's extraction regex
(case-sensitive in the source). -/
def stepOpen : List Char := ['<', 's', 't', 'e', 'p', '>']

/-- The literal close token `</step>` of the planner's extraction regex. -/
def stepClose : List Char := ['<', '/', 's', 't', 'e', 'p', '>']

/-- Split a string at the first occurrence of `pat`: returns the part before
the occurrence and the part after it, or nothing when `pat` does not
occur. -/
def splitAtSub (pat : List Char) : List Char → Option (List Char × List Char)
  | [] => if leadsWith pat [] then some ([], []) else Option.none
  | c :: r =>
      if leadsWith pat (c :: r) then some ([], (c :: r).drop pat.length)
      else
        match splitAtSub pat r with
        | some pr => some (c :: pr.1, pr.2)
        | Option.none => Option.none

/-- Fuel-indexed scan of `re.findall(r'<step>(.*?)</step>', s, re.DOTALL)`:
repeatedly take the earliest `<step>`, then the earliest following
`</step>`, capture the text between them (which is the lazy, non-greedy
shortest capture), and continue after the close token.  Each step shortens
the remaining text by at least the two token lengths, so fuel
`s.length + 1` never runs out. -/
def findStepsAux : Nat → List Char → List (List Char)
  | 0, _ => []
  | Nat.succ f, s =>
      match splitAtSub stepOpen s with
      | Option.none => []
      | some pr1 =>
          match splitAtSub stepClose pr1.2 with
          | Option.none => []
          | some pr2 => pr2.1 :: findStepsAux f pr2.2

/-- All non-overlapping `<step>`-delimited captures of a text, in document
order. -/
def findSteps (s : List Char) : List (List Char) :=
  findStepsAux (s.length + 1) s

/-- The case-insensitive infeasibility keyword checked by
`PlannerAgent.plan`. -/
def unableWord : List Char := ['u', 'n', 'a', 'b', 'l', 'e']

/-- Embedding of the post-processing of `PlannerAgent.plan` on the model
output text: extract the captures, strip each, discard empty ones, then run
the source's explicit branches (`if not steps`, the single-step `unable`
check) verbatim. -/
def plan (output : List Char) : List (List Char) :=
  let steps := ((findSteps output).map pyStrip).filter (fun st => !st.isEmpty)
  if steps.isEmpty then []
  else if steps.length = 1 && occursIn unableWord (lowerList (steps.headD [])) then steps
  else steps

/-- Value of `history.extracted_content()` as seen by
`BrowserTaskAgent.run_task`, with Python truthiness: absent (`None`), a
plain string, or a list of strings. -/
inductive ExtractedContent where
  | pyNone : ExtractedContent
  | pyStr (s : List Char) : ExtractedContent
  | pyList (l : List (List Char)) : ExtractedContent
deriving DecidableEq

/-- Python truthiness of the extracted content (`if content:`). -/
def truthy : ExtractedContent → Bool
  | ExtractedContent.pyNone => false
  | ExtractedContent.pyStr s => !s.isEmpty
  | ExtractedContent.pyList l => !l.isEmpty

/-- The content part of the summary: a list is newline-joined over its
truthy elements (`"\n".join(str(c) for c in content if c)`), anything else
passes through `str`. -/
def contentText : ExtractedContent → List Char
  | ExtractedContent.pyNone => []
  | ExtractedContent.pyStr s => s
  | ExtractedContent.pyList l => List.intercalate ['\n'] (l.filter (fun c => !c.isEmpty))

/-- The fixed apology sentence appended when the browsing trace contains
errors. -/
def apologyMsg : List Char :=
  "Couldn".toList ++ [Char.ofNat 39] ++ "t extract information from the browsing session.".toList

/-- The fixed fallback sentence returned when neither content nor errors
exist. -/
def fallbackMsg : List Char :=
  "No useful information could be extracted from the browsing session.".toList

/-- Embedding of the summary composition of `BrowserTaskAgent.run_task`
after the browsing session: build `summary_parts` from the extracted
content and the error list, fall back to the fixed sentence when empty, and
newline-join the parts.  The `print` of errors is output-only and has no
counterpart. -/
def run_task (content : ExtractedContent) (errors : List (List Char)) : List Char :=
  let parts1 : List (List Char) := if truthy content then [contentText content] else []
  let parts2 : List (List Char) := if errors.isEmpty then parts1 else parts1 ++ [apologyMsg]
  let parts3 : List (List Char) := if parts2.isEmpty then [fallbackMsg] else parts2
  List.intercalate ['\n'] parts3

/-- Introspection view of a registered agent or tool as used by
`PlannerAgent._docs_dict`: the declared documentation
(`getattr(obj.__class__, '__doc__', None)` for agents,
`getattr(obj, 'description', None)` for tools; absent is `None`) and the
object's `str()` representation. -/
structure PyIntrospect where
  declaredDoc : Option (List Char)
  strRep : List Char
deriving DecidableEq

/-- Python's `a or b` on an optional string against a string: `b` when `a`
is `None` or empty, else `a`. -/
def pyOrStr (a : Option (List Char)) (b : List Char) : List Char :=
  match a with
  | Option.none => b
  | Option.some s => if s.isEmpty then b else s

/-- The generic no-documentation string of `PlannerAgent._docs_dict`. -/
def noDocMsg : List Char := "No documentation available.".toList

/-- Embedding of one entry computation of `PlannerAgent._docs_dict`:
`doc = declared or str(obj)`, then `doc.strip() if doc else
"No documentation available."`. -/
def docEntry (o : PyIntrospect) : List Char :=
  let doc := pyOrStr o.declaredDoc o.strRep
  if doc.isEmpty then noDocMsg else pyStrip doc

/-- Embedding of `PlannerAgent._docs_dict` over the registered agents and
tools (keys are the registry names for agents and the resolved tool names
for tools). -/
def docs_dict (agents : List (List Char × PyIntrospect)) (tools : List (List Char × PyIntrospect)) :
    List (List Char × List Char) × List (List Char × List Char) :=
  (agents.map (fun p => (p.1, docEntry p.2)), tools.map (fun p => (p.1, docEntry p.2)))

/-- Characterization of the prefix test. -/
theorem leadsWith_iff : ∀ (pat s : List Char), leadsWith pat s = true ↔ ∃ t, s = pat ++ t
  | [], s => by
      simp only [leadsWith, List.nil_append, true_iff]
      exact ⟨s, rfl⟩
  | a :: as, [] => by
      simp [leadsWith]
  | a :: as, b :: bs => by
      simp only [leadsWith, Bool.and_eq_true, beq_iff_eq, List.cons_append, List.cons.injEq]
      constructor
      · rintro ⟨rfl, hrec⟩
        obtain ⟨t, rfl⟩ := (leadsWith_iff as bs).mp hrec
        exact ⟨t, rfl, rfl⟩
      · rintro ⟨t, rfl, rfl⟩
        exact ⟨rfl, (leadsWith_iff as (as ++ t)).mpr ⟨t, rfl⟩⟩

/-- Adequacy of `splitAtSub`: a successful split decomposes the input around
the first occurrence of the pattern. -/
theorem splitAtSub_eq (pat : List Char) :
    ∀ (s : List Char) (pr : List Char × List Char),
      splitAtSub pat s = some pr → s = pr.1 ++ pat ++ pr.2
  | [], pr => by
      simp only [splitAtSub]
      split
      · next hlw =>
          intro hsome
          obtain ⟨t, ht⟩ := (leadsWith_iff pat []).mp hlw
          cases hsome
          have hpat : pat = [] := (List.append_eq_nil.mp ht.symm).1
          simp [hpat]
      · intro hsome
        cases hsome
  | c :: r, pr => by
      simp only [splitAtSub]
      split
      · next hlw =>
          intro hsome
          obtain ⟨t, ht⟩ := (leadsWith_iff pat (c :: r)).mp hlw
          cases hsome
          simp only [List.nil_append]
          rw [ht, List.drop_left]
      · next hlw =>
          cases hrec : splitAtSub pat r with
          | none => intro hsome; cases hsome
          | some pr2 =>
              intro hsome
              cases hsome
              have := splitAtSub_eq pat r pr2 hrec
              simp only [List.cons_append, List.append_assoc] at this ⊢
              rw [← this]

/-- Length bookkeeping of a successful split. -/
theorem splitAtSub_length (pat s : List Char) (pr : List Char × List Char)
    (h : splitAtSub pat s = some pr) :
    pr.1.length + pat.length + pr.2.length = s.length := by
  have hdec := splitAtSub_eq pat s pr h
  rw [hdec]
  simp [List.length_append]
  omega

/-- A split fails exactly when the pattern does not occur in the input. -/
theorem splitAtSub_none_iff (pat : List Char) :
    ∀ s : List Char, splitAtSub pat s = Option.none ↔ occursIn pat s = false
  | [] => by
      cases hlw : leadsWith pat [] <;> simp [splitAtSub, occursIn, hlw]
  | c :: r => by
      cases hlw : leadsWith pat (c :: r) with
      | true => simp [splitAtSub, occursIn, hlw]
      | false =>
          simp only [splitAtSub, occursIn, hlw, Bool.false_or, if_false]
          cases hrec : splitAtSub pat r with
          | none =>
              have := (splitAtSub_none_iff pat r).mp hrec
              simp [this]
          | some pr =>
              have : ¬ (occursIn pat r = false) := by
                intro hocc
                rw [(splitAtSub_none_iff pat r).mpr hocc] at hrec
                cases hrec
              simp [hrec, this]

/-- Fuel irrelevance of the step scan: any fuel above the input length gives
the same result, so `findSteps` computes the full unbounded scan. -/
theorem findStepsAux_fuel : ∀ (f1 f2 : Nat) (s : List Char),
    s.length < f1 → s.length < f2 → findStepsAux f1 s = findStepsAux f2 s
  | 0, _, s, hf1, _ => absurd hf1 (by omega)
  | _ + 1, 0, s, _, hf2 => absurd hf2 (by omega)
  | f1 + 1, f2 + 1, s, hf1, hf2 => by
      cases ho : splitAtSub stepOpen s with
      | none => simp [findStepsAux, ho]
      | some pr1 =>
          cases hc : splitAtSub stepClose pr1.2 with
          | none => simp [findStepsAux, ho, hc]
          | some pr2 =>
              have l1 := splitAtSub_length stepOpen s pr1 ho
              have l2 := splitAtSub_length stepClose pr1.2 pr2 hc
              have e1 : stepOpen.length = 6 := rfl
              have e2 : stepClose.length = 7 := rfl
              have hlt1 : pr2.2.length < f1 := by omega
              have hlt2 : pr2.2.length < f2 := by omega
              simp only [findStepsAux, ho, hc]
              rw [findStepsAux_fuel f1 f2 pr2.2 hlt1 hlt2]

/-- One-step unfolding of the loop on the marker branch: when the done
pattern matches anywhere in the trimmed response, the loop returns the
truncated response immediately, after storing the records of this call. -/
theorem runLoop_done_step {ρ : Type} (ask : Ask ρ) (f : Nat) (p : List Char) (h : List ρ)
    (last : List Char) (c : Nat)
    (hd : doneSearch (pyStrip (ask p h).output) = true) :
    runLoop ask (f + 1) p h last c =
      ⟨pyStrip (slice6m7 (pyStrip (ask p h).output)),
       store_interaction h (ask p h).newMessages, c + 1⟩ := by
  simp [runLoop, hd]

/-- One-step unfolding of the loop on the self-feedback branch: no match of
the done pattern means the trimmed response becomes the next prompt. -/
theorem runLoop_cont_step {ρ : Type} (ask : Ask ρ) (f : Nat) (p : List Char) (h : List ρ)
    (last : List Char) (c : Nat)
    (hd : doneSearch (pyStrip (ask p h).output) = false) :
    runLoop ask (f + 1) p h last c =
      runLoop ask f (pyStrip (ask p h).output)
        (store_interaction h (ask p h).newMessages)
        (pyStrip (ask p h).output) (c + 1) := by
  simp [runLoop, hd]

/-- Marker branch at any nonzero fuel. -/
theorem runLoop_done_ne {ρ : Type} (ask : Ask ρ) (f : Nat) (p : List Char) (h : List ρ)
    (last : List Char) (c : Nat) (hf : f ≠ 0)
    (hd : doneSearch (pyStrip (ask p h).output) = true) :
    runLoop ask f p h last c =
      ⟨pyStrip (slice6m7 (pyStrip (ask p h).output)),
       store_interaction h (ask p h).newMessages, c + 1⟩ := by
  cases f with
  | zero => exact absurd rfl hf
  | succ f => exact runLoop_done_step ask f p h last c hd

/-- The loop performs at most `fuel` further completion-service calls. -/
theorem runLoop_calls_le {ρ : Type} (ask : Ask ρ) :
    ∀ (f : Nat) (p : List Char) (h : List ρ) (last : List Char) (c : Nat),
      (runLoop ask f p h last c).calls ≤ c + f
  | 0, p, h, last, c => by simp [runLoop]
  | f + 1, p, h, last, c => by
      cases hd : doneSearch (pyStrip (ask p h).output) with
      | true =>
          rw [runLoop_done_step ask f p h last c hd]
          simp only
          omega
      | false =>
          rw [runLoop_cont_step ask f p h last c hd]
          have := runLoop_calls_le ask f (pyStrip (ask p h).output)
            (store_interaction h (ask p h).newMessages)
            (pyStrip (ask p h).output) (c + 1)
          omega

/-- When no response ever matches the done pattern, the loop consumes all
its fuel, returns the last trimmed response, and its call count is exactly
the fuel. -/
theorem runLoop_no_done {ρ : Type} (ask : Ask ρ)
    (H : ∀ p h, doneSearch (pyStrip (ask p h).output) = false) :
    ∀ (f : Nat) (p : List Char) (h : List ρ) (last : List Char) (c : Nat), f ≠ 0 →
      runLoop ask f p h last c =
        ⟨(finalState ask f p h).1, (finalState ask f p h).2, c + f⟩
  | 0, _, _, _, _, hne => absurd rfl hne
  | f + 1, p, h, last, c, _ => by
      rw [runLoop_cont_step ask f p h last c (H p h)]
      rcases Nat.eq_zero_or_pos f with hf | hf
      · subst hf
        simp [runLoop, finalState]
      · rw [runLoop_no_done ask H f _ _ _ (c + 1) (Nat.pos_iff_ne_zero.mp hf)]
        simp only [finalState]
        have : c + 1 + f = c + (f + 1) := by omega
        rw [this]

/-- History bookkeeping of the loop: the incoming history is kept as a
prefix and each call's records are appended in call order; the call count
is the number of per-call record lists. -/
theorem runLoop_history {ρ : Type} (ask : Ask ρ) :
    ∀ (f : Nat) (p : List Char) (h : List ρ) (last : List Char) (c : Nat),
      (runLoop ask f p h last c).history = h ++ (callRecords ask f p h).flatten ∧
      (runLoop ask f p h last c).calls = c + (callRecords ask f p h).length
  | 0, p, h, last, c => by simp [runLoop, callRecords]
  | f + 1, p, h, last, c => by
      cases hd : doneSearch (pyStrip (ask p h).output) with
      | true =>
          rw [runLoop_done_step ask f p h last c hd]
          simp [callRecords, hd, store_interaction]
      | false =>
          rw [runLoop_cont_step ask f p h last c hd]
          have IH := runLoop_history ask f (pyStrip (ask p h).output)
            (store_interaction h (ask p h).newMessages)
            (pyStrip (ask p h).output) (c + 1)
          simp only [callRecords, hd, Bool.false_eq_true, if_false, List.flatten_cons,
            List.length_cons, store_interaction] at IH ⊢
          refine ⟨?_, ?_⟩
          · rw [IH.1]
            simp [List.append_assoc]
          · rw [IH.2]
            omega

/-- Trimming is the identity on a string whose first and last characters
are not whitespace. -/
theorem pyStrip_eq_self (s : List Char) (a : Char) (t : List Char) (b : Char) (u : List Char)
    (h1 : s = a :: t) (h2 : s.reverse = b :: u)
    (ha : isPyWs a = false) (hb : isPyWs b = false) : pyStrip s = s := by
  have e1 : s.dropWhile isPyWs = s := by
    rw [h1]
    simp [List.dropWhile_cons, ha]
  have e2 : s.reverse.dropWhile isPyWs = s.reverse := by
    rw [h2]
    simp [List.dropWhile_cons, hb]
  unfold pyStrip
  rw [e1, e2, List.reverse_reverse]

/-- The slice `[6:-7]` of a string assembled from a 6-character opener, an
inner text and a 7-character closer is exactly the inner text. -/
theorem slice6m7_wrap (o T cl : List Char) (ho : o.length = 6) (hc : cl.length = 7) :
    slice6m7 (o ++ T ++ cl) = T := by
  unfold slice6m7
  rw [List.append_assoc, ← ho, List.drop_left]
  have hlen : (o ++ (T ++ cl)).length - 13 = T.length := by
    simp only [List.length_append, ho, hc]
    omega
  rw [hlen]
  exact List.take_left T cl

/-- The done pattern matches at the head of any string starting with a
letter-case variant of the open wrapper. -/
theorem isDoneTagAt_openVariant (a b c d : Char) (X : List Char)
    (ha : a.toLower = 'd') (hb : b.toLower = 'o') (hc : c.toLower = 'n') (hd : d.toLower = 'e') :
    isDoneTagAt ('<' :: a :: b :: c :: d :: '>' :: X) = true := by
  have hslash : ¬ (a = '/') := by
    intro h
    rw [h] at ha
    exact absurd ha (by decide)
  have hgt : isPyWs '>' = false := by decide
  simp [isDoneTagAt, hslash, doneWordThen, ha, hb, hc, hd, skipWs, hgt]

/-- The done pattern matches at the head of any string starting with a
letter-case variant of the close wrapper. -/
theorem isDoneTagAt_closeVariant (a b c d : Char) (X : List Char)
    (ha : a.toLower = 'd') (hb : b.toLower = 'o') (hc : c.toLower = 'n') (hd : d.toLower = 'e') :
    isDoneTagAt ('<' :: '/' :: a :: b :: c :: d :: '>' :: X) = true := by
  have hgt : isPyWs '>' = false := by decide
  simp [isDoneTagAt, doneWordThen, ha, hb, hc, hd, skipWs, hgt]

/-- A match at the head of the string is found by the search. -/
theorem doneSearch_of_head : ∀ (s : List Char), isDoneTagAt s = true → doneSearch s = true
  | [], h => by simp [isDoneTagAt] at h
  | c :: r, h => by simp [doneSearch, h]

/-- Anything the spec's anchored marker grammar accepts, the code's
unanchored search also accepts. -/
theorem specMarker_doneSearch (s : List Char) (h : specMarker s) : doneSearch s = true := by
  obtain ⟨⟨o, t, ⟨a, b, c, d, rfl, ha, hb, hc, hd⟩, rfl⟩, _⟩ := h
  exact doneSearch_of_head _ (isDoneTagAt_openVariant a b c d t ha hb hc hd)

/-- The trailing branches of `plan` never change the extracted step list:
the result is always the stripped, non-empty captures. -/
theorem plan_eq_filtered (output : List Char) :
    plan output = ((findSteps output).map pyStrip).filter (fun st => !st.isEmpty) := by
  unfold plan
  by_cases h : (((findSteps output).map pyStrip).filter (fun st => !st.isEmpty)).isEmpty
  · simp only [h, if_true]
    exact (List.isEmpty_iff.mp h).symm
  · simp only [h, Bool.false_eq_true, if_false, ite_self]

/-- Without any open step token in the text, the scan extracts nothing. -/
theorem findSteps_no_tag (output : List Char) (h : occursIn stepOpen output = false) :
    findSteps output = [] := by
  have hnone := (splitAtSub_none_iff stepOpen output).mpr h
  unfold findSteps
  simp only [findStepsAux, hnone]

/-- Response with a stray close wrapper in mid-text: wrapper text is
present, but the response neither starts with an open wrapper nor is
anchored as the spec's marker grammar requires. -/
def strayTagResponse : List Char :=
  ['o', 'o', 'p', 's', ' ', '<', '/', 'd', 'o', 'n', 'e', '>']

/-- Completion service whose every response is `strayTagResponse`. -/
def strayAsk : Ask Nat := fun _ _ => ⟨strayTagResponse, []⟩

/-- Claim C1 counterexample: the response `oops </done>` contains wrapper
text but does not match the spec's anchored marker grammar, so by the claim
it must be handled by the self-feedback branch; the code instead treats it
as a Completion Marker and returns after a single completion-service call
(with the truncated answer, here empty). -/
theorem stray_close_tag_counterexample :
    occursIn closeTag (lowerList strayTagResponse) = true ∧
    ¬ specMarker strayTagResponse ∧
    run strayAsk ['h', 'i'] [] = ⟨[], [], 1⟩ := by
  refine ⟨by decide, ?_, by decide⟩
  rintro ⟨⟨o, t, ⟨a, b, c, d, rfl, _, _, _, _⟩, heq⟩, _⟩
  simp only [strayTagResponse, List.cons_append, List.nil_append, List.cons.injEq] at heq
  exact absurd heq.1 (by decide)

/-- Claim C1 (amended): the loop treats the trimmed response as a
Completion Marker if and only if the done pattern (an open or close done
tag, case-insensitive, optional whitespace before the closing angle
bracket) occurs anywhere in it — returning the truncated response — and
otherwise takes the self-feedback branch; every response the spec's
anchored marker grammar accepts is in particular accepted, but so are
responses with a tag anywhere. -/
theorem marker_branch_iff_tag_occurs :
    (∀ (ρ : Type) (ask : Ask ρ) (f : Nat) (p : List Char) (h : List ρ)
        (last : List Char) (c : Nat),
      (doneSearch (pyStrip (ask p h).output) = true →
        runLoop ask (f + 1) p h last c =
          ⟨pyStrip (slice6m7 (pyStrip (ask p h).output)),
           store_interaction h (ask p h).newMessages, c + 1⟩) ∧
      (doneSearch (pyStrip (ask p h).output) = false →
        runLoop ask (f + 1) p h last c =
          runLoop ask f (pyStrip (ask p h).output)
            (store_interaction h (ask p h).newMessages)
            (pyStrip (ask p h).output) (c + 1))) ∧
    (∀ s : List Char, specMarker s → doneSearch s = true) :=
  ⟨fun ρ ask f p h last c =>
    ⟨runLoop_done_step ask f p h last c, runLoop_cont_step ask f p h last c⟩,
   specMarker_doneSearch⟩

/-- Completion service whose every response is a well-formed marker. -/
def neatDoneAsk : Ask Nat := fun _ _ => ⟨"<done> fine </done>".toList, [9]⟩

/-- Witness for the amended claim C1 at concrete inputs: the marker branch
fires on a well-formed wrapped response, and the spec-anchored response is
accepted by the search. -/
theorem marker_branch_iff_tag_occurs_witness :
    runLoop neatDoneAsk 5 ['q'] [] [] 2 =
      ⟨pyStrip (slice6m7 (pyStrip (neatDoneAsk ['q'] []).output)),
       store_interaction [] (neatDoneAsk ['q'] []).newMessages, 3⟩ ∧
    doneSearch "<done> fine </done>".toList = true :=
  ⟨(marker_branch_iff_tag_occurs.1 Nat neatDoneAsk 4 ['q'] [] [] 2).1 (by decide),
   marker_branch_iff_tag_occurs.2 "<done> fine </done>".toList
     ⟨⟨['<', 'd', 'o', 'n', 'e', '>'], " fine </done>".toList,
       ⟨'d', 'o', 'n', 'e', rfl, by decide, by decide, by decide, by decide⟩, by decide⟩,
      ⟨['<', '/', 'd', 'o', 'n', 'e', '>'], "<done> fine ".toList,
       ⟨'d', 'o', 'n', 'e', rfl, by decide, by decide, by decide, by decide⟩, by decide⟩⟩⟩

/-- Claim C10: whenever the done pattern matches anywhere in the trimmed
response — including a lone closing tag, a tag in mid-text, or a tag with
internal whitespace — the loop immediately returns the response with its
first 6 and last 7 characters removed and the remainder trimmed. -/
theorem done_tag_truncation :
    (∀ (ρ : Type) (ask : Ask ρ) (f : Nat) (p : List Char) (h : List ρ)
        (last : List Char) (c : Nat),
      doneSearch (pyStrip (ask p h).output) = true →
        runLoop ask (f + 1) p h last c =
          ⟨pyStrip (slice6m7 (pyStrip (ask p h).output)),
           store_interaction h (ask p h).newMessages, c + 1⟩) ∧
    (∀ s : List Char, slice6m7 s = (s.take (s.length - 7)).drop 6) ∧
    doneSearch closeTag = true ∧
    doneSearch "some text <done> more text".toList = true ∧
    doneSearch "<done \t >x".toList = true := by
  refine ⟨fun ρ ask f p h last c => runLoop_done_step ask f p h last c,
    ?_, by decide, by decide, by decide⟩
  intro s
  unfold slice6m7
  rw [List.drop_take]
  congr 1

/-- Completion service answering with text around a lone closing tag. -/
def notedAsk : Ask Nat := fun _ _ => ⟨"note </done>".toList, [4]⟩

/-- Witness for claim C10 at a concrete input: a lone closing tag in
mid-text triggers the marker branch, and the 12-character response loses
its first 6 and last 7 characters, leaving the empty answer. -/
theorem done_tag_truncation_witness :
    runLoop notedAsk 7 ['z'] [] [] 0 =
      ⟨pyStrip (slice6m7 (pyStrip (notedAsk ['z'] []).output)),
       store_interaction [] (notedAsk ['z'] []).newMessages, 1⟩ ∧
    pyStrip (slice6m7 (pyStrip (notedAsk ['z'] []).output)) = [] :=
  ⟨done_tag_truncation.1 Nat notedAsk 6 ['z'] [] [] 0 (by decide), by decide⟩

/-- A model response in the documented delegation format, naming the
registered browser agent. -/
def delegationExample : List Char := "delegate_to: browser_agent\ntask: find X".toList

/-- Completion service whose every response is the delegation directive. -/
def delegationAsk : Ask Nat := fun _ _ => ⟨delegationExample, []⟩

/-- Claim C2 (code bug evidence): the directive parses and names an agent
present in the registry, yet the loop performs no delegation at all — it
feeds the directive text back to itself for all 10 turns and returns the
directive text, and its entire result is independent of the stored agent
registry, so no `run_task` call and no dedicated synthesis call exist on
any path. -/
theorem delegation_directive_ignored :
    delegationDirective delegationExample = some ("browser_agent".toList) ∧
    "browser_agent".toList ∈ ["browser_agent".toList] ∧
    PersonalAssistant.runPA ⟨["browser_agent".toList], delegationAsk⟩ ("find X".toList) [] =
      ⟨delegationExample, [], max_turns⟩ ∧
    (∀ (ρ : Type) (reg1 reg2 : List (List Char)) (ask : Ask ρ) (u : List Char) (h0 : List ρ),
      PersonalAssistant.runPA ⟨reg1, ask⟩ u h0 = PersonalAssistant.runPA ⟨reg2, ask⟩ u h0) :=
  ⟨by decide, by decide, by decide, fun ρ reg1 reg2 ask u h0 => rfl⟩

/-- Claim C3: for every completion service the loop returns after at most
`max_turns` calls; and when no response ever matches the done pattern, it
performs exactly `max_turns` calls and returns the `max_turns`-th trimmed
response unchanged (the first component of `finalState` after `max_turns`
feedback turns is exactly the trimmed output of the last call). -/
theorem run_terminates_within_max_turns :
    (∀ (ρ : Type) (ask : Ask ρ) (u : List Char) (h0 : List ρ),
      (run ask u h0).calls ≤ max_turns) ∧
    (∀ (ρ : Type) (ask : Ask ρ) (u : List Char) (h0 : List ρ),
      (∀ p h, doneSearch (pyStrip (ask p h).output) = false) →
      run ask u h0 =
        ⟨(finalState ask max_turns u h0).1, (finalState ask max_turns u h0).2, max_turns⟩) := by
  constructor
  · intro ρ ask u h0
    have := runLoop_calls_le ask max_turns u h0 [] 0
    simpa [run] using this
  · intro ρ ask u h0 H
    have := runLoop_no_done ask H max_turns u h0 [] 0 (by decide)
    simpa [run] using this

/-- Completion service that always answers with plain, marker-free text. -/
def steadyAsk : Ask Nat := fun _ _ => ⟨"keep thinking".toList, [3]⟩

/-- Witness for claim C3: with a service that always returns marker-free
text, the loop makes exactly 10 calls and hands back the 10th trimmed
response. -/
theorem run_terminates_within_max_turns_witness :
    run steadyAsk ['g', 'o'] [] =
      ⟨(finalState steadyAsk max_turns ['g', 'o'] []).1,
       (finalState steadyAsk max_turns ['g', 'o'] []).2, max_turns⟩ ∧
    (finalState steadyAsk max_turns ['g', 'o'] []).1 = "keep thinking".toList ∧
    (run steadyAsk ['g', 'o'] []).calls = 10 :=
  ⟨run_terminates_within_max_turns.2 Nat steadyAsk ['g', 'o'] []
     (fun p h => by simp only [steadyAsk]; decide),
   by decide, by decide⟩

/-- Claim C6: an invocation of `run` only ever appends to the conversation
history — the incoming history is kept intact as a prefix, and what follows
it is exactly the concatenation, in strict call order, of the exchange
records produced by each completion-service call; the number of per-call
record lists equals the number of calls. -/
theorem history_append_only :
    ∀ (ρ : Type) (ask : Ask ρ) (u : List Char) (h0 : List ρ),
      (run ask u h0).history = h0 ++ (callRecords ask max_turns u h0).flatten ∧
      (run ask u h0).calls = (callRecords ask max_turns u h0).length := by
  intro ρ ask u h0
  have := runLoop_history ask max_turns u h0 [] 0
  simpa [run] using this

/-- Claim C4: when the first completion-service call answers with an inner
text wrapped as open wrapper + text + close wrapper, in any letter case,
the loop returns the trimmed inner text after exactly one call, with that
call's records stored. -/
theorem done_roundtrip (ρ : Type) (ask : Ask ρ) (u : List Char) (h0 : List ρ)
    (o T cl : List Char) (recs : List ρ)
    (hov : isOpenVariant o) (hcv : isCloseVariant cl)
    (hT1 : occursIn openTag (lowerList T) = false)
    (hT2 : occursIn closeTag (lowerList T) = false)
    (hask : ask u h0 = ⟨o ++ T ++ cl, recs⟩) :
    run ask u h0 = ⟨pyStrip T, h0 ++ recs, 1⟩ := by
  obtain ⟨a, b, c, d, rfl, ha1, ha2, ha3, ha4⟩ := hov
  obtain ⟨e, g, i, j, rfl, hb1, hb2, hb3, hb4⟩ := hcv
  have hrev : ((['<', a, b, c, d, '>'] : List Char) ++ T ++ ['<', '/', e, g, i, j, '>']).reverse
      = '>' :: ((j :: i :: g :: e :: '/' :: '<' :: []) ++
          ((['<', a, b, c, d, '>'] : List Char) ++ T).reverse) := by
    rw [List.reverse_append]
    rfl
  have hstrip :
      pyStrip ((['<', a, b, c, d, '>'] : List Char) ++ T ++ ['<', '/', e, g, i, j, '>'])
        = (['<', a, b, c, d, '>'] : List Char) ++ T ++ ['<', '/', e, g, i, j, '>'] :=
    pyStrip_eq_self _ '<' _ '>' _ rfl hrev (by decide) (by decide)
  have hdone :
      doneSearch ((['<', a, b, c, d, '>'] : List Char) ++ T ++ ['<', '/', e, g, i, j, '>'])
        = true :=
    doneSearch_of_head _ (isDoneTagAt_openVariant a b c d _ ha1 ha2 ha3 ha4)
  have hd : doneSearch (pyStrip (ask u h0).output) = true := by
    rw [hask]
    show doneSearch
      (pyStrip ((['<', a, b, c, d, '>'] : List Char) ++ T ++ ['<', '/', e, g, i, j, '>'])) = true
    rw [hstrip]
    exact hdone
  unfold run
  rw [runLoop_done_ne ask max_turns u h0 [] 0 (by decide) hd]
  simp only [hask, store_interaction]
  rw [hstrip,
    slice6m7_wrap (['<', a, b, c, d, '>'] : List Char) T (['<', '/', e, g, i, j, '>'] : List Char)
      rfl rfl]

/-- Completion service answering once and for all with a mixed-case wrapped
inner text. -/
def wrapAsk : Ask Nat := fun _ _ => ⟨"<DoNe>".toList ++ "  42 ".toList ++ "</dOnE>".toList, [5]⟩

/-- Witness for claim C4 at a concrete input: the mixed-case wrapper around
an inner text with surrounding spaces round-trips to the stripped inner
text in one call. -/
theorem done_roundtrip_witness :
    run wrapAsk ['h', 'i'] [] = ⟨pyStrip "  42 ".toList, [] ++ [5], 1⟩ ∧
    pyStrip "  42 ".toList = ['4', '2'] :=
  ⟨done_roundtrip Nat wrapAsk ['h', 'i'] [] ("<DoNe>".toList) ("  42 ".toList)
     ("</dOnE>".toList) [5]
     ⟨'D', 'o', 'N', 'e', by decide, by decide, by decide, by decide, by decide⟩
     ⟨'d', 'O', 'n', 'E', by decide, by decide, by decide, by decide, by decide⟩
     (by decide) (by decide) rfl,
   by decide⟩

/-- Claim C5: a response whose first line is a delegation directive naming
an agent absent from the registry is handled as a plain self-feedback turn:
no failure, the call's records are appended to history, the trimmed
directive text becomes the next prompt, and the loop continues with one
more call counted. -/
theorem unknown_agent_selffeedback (ρ : Type) (ask : Ask ρ) (f : Nat) (p : List Char)
    (h : List ρ) (last : List Char) (c : Nat)
    (registry : List (List Char)) (agentName : List Char)
    (hdir : delegationDirective (pyStrip (ask p h).output) = some agentName)
    (hreg : agentName ∉ registry)
    (hnd : doneSearch (pyStrip (ask p h).output) = false) :
    runLoop ask (f + 1) p h last c =
      runLoop ask f (pyStrip (ask p h).output)
        (store_interaction h (ask p h).newMessages)
        (pyStrip (ask p h).output) (c + 1) :=
  runLoop_cont_step ask f p h last c hnd

/-- Completion service answering with a directive that names an
unregistered agent. -/
def ghostAsk : Ask Nat := fun _ _ => ⟨"delegate_to: ghost\ntask: x".toList, [7]⟩

/-- Witness for claim C5 at a concrete input: a directive naming `ghost`,
absent from a registry holding only `browser_agent`, leads to the
self-feedback continuation. -/
theorem unknown_agent_selffeedback_witness :
    runLoop ghostAsk 4 ['p'] [1, 2] [] 0 =
      runLoop ghostAsk 3 (pyStrip (ghostAsk ['p'] [1, 2]).output)
        (store_interaction [1, 2] (ghostAsk ['p'] [1, 2]).newMessages)
        (pyStrip (ghostAsk ['p'] [1, 2]).output) 1 :=
  unknown_agent_selffeedback Nat ghostAsk 3 ['p'] [1, 2] [] 0
    ["browser_agent".toList] ("ghost".toList) (by decide) (by decide) (by decide)

/-- Example output with two tagged steps. -/
def stepExampleAB : List Char := "<step>A</step><step>B</step>".toList

/-- Claim C7: the planner's extraction returns exactly the stripped,
non-empty tag-delimited captures in document order (the trailing branches
of the source never alter this), the two-step example extracts in order,
and output without any open step token yields the empty list. -/
theorem plan_extraction :
    (∀ output : List Char,
      plan output = ((findSteps output).map pyStrip).filter (fun st => !st.isEmpty)) ∧
    plan stepExampleAB = [['A'], ['B']] ∧
    (∀ output : List Char, occursIn stepOpen output = false → plan output = []) := by
  refine ⟨plan_eq_filtered, by decide, ?_⟩
  intro output h
  rw [plan_eq_filtered, findSteps_no_tag output h]
  rfl

/-- Witness for claim C7 at a concrete input: text without step tags plans
to the empty list. -/
theorem plan_extraction_witness :
    plan "the model produced no tagged steps".toList = [] :=
  plan_extraction.2.2 ("the model produced no tagged steps".toList) (by decide)

/-- Claim C8: the browser agent's summary is composed in priority order —
extracted content first (newline-joined for sequences, as-is otherwise),
the fixed apology sentence appended whenever the trace has errors
regardless of content, and exactly the fixed non-empty fallback sentence
when there is neither content nor errors; the embedding is a total
function, so no exception is possible. -/
theorem run_task_composition (content : ExtractedContent) (errors : List (List Char)) :
    (truthy content = true → errors ≠ [] →
      run_task content errors = contentText content ++ '\n' :: apologyMsg) ∧
    (truthy content = true → errors = [] →
      run_task content errors = contentText content) ∧
    (truthy content = false → errors ≠ [] →
      run_task content errors = apologyMsg) ∧
    (truthy content = false → errors = [] →
      run_task content errors = fallbackMsg ∧ fallbackMsg ≠ []) := by
  refine ⟨?_, ?_, ?_, ?_⟩ <;> intro ht he
  · have hne : errors.isEmpty = false := by
      simpa [List.isEmpty_iff] using he
    simp [run_task, ht, hne, List.intercalate, List.intersperse]
  · simp [run_task, ht, he, List.intercalate, List.intersperse]
  · have hne : errors.isEmpty = false := by
      simpa [List.isEmpty_iff] using he
    simp [run_task, ht, hne, List.intercalate, List.intersperse]
  · refine ⟨?_, by decide⟩
    simp [run_task, ht, he, List.intercalate, List.intersperse]

/-- Witness for claim C8 at a concrete input: a task run with no extracted
content and no errors yields exactly the non-empty fallback sentence. -/
theorem run_task_composition_witness :
    run_task ExtractedContent.pyNone [] = fallbackMsg ∧ fallbackMsg ≠ [] :=
  (run_task_composition ExtractedContent.pyNone []).2.2.2 rfl rfl

/-- Introspection view of a registered agent without a class docstring but
with the usual non-empty object representation. -/
def undocumentedAgent : PyIntrospect :=
  ⟨Option.none, "<BrowserTaskAgent object at 0x7f01>".toList⟩

/-- Claim C9 counterexample: an agent that lacks a declared description
does NOT get the generic no-documentation string — the code first falls
back to the object's `str()` representation, and the capability listing
shows that representation. -/
theorem docEntry_counterexample :
    undocumentedAgent.declaredDoc = Option.none ∧
    docEntry undocumentedAgent = "<BrowserTaskAgent object at 0x7f01>".toList ∧
    docEntry undocumentedAgent ≠ noDocMsg ∧
    (docs_dict [("browser_agent".toList, undocumentedAgent)] []).1 =
      [("browser_agent".toList, "<BrowserTaskAgent object at 0x7f01>".toList)] :=
  ⟨rfl, by decide, by decide, by decide⟩

/-- Claim C9 (amended): when the declared description is absent, a
capability entry falls back to the trimmed `str()` representation of the
object; the generic no-documentation string appears only when that
representation is empty as well. -/
theorem docEntry_fallback_chain (o : PyIntrospect) :
    (o.declaredDoc = Option.none → o.strRep ≠ [] → docEntry o = pyStrip o.strRep) ∧
    (o.declaredDoc = Option.none → o.strRep = [] → docEntry o = noDocMsg) := by
  constructor <;> intro hd hs
  · have hne : o.strRep.isEmpty = false := by
      simpa [List.isEmpty_iff] using hs
    simp [docEntry, pyOrStr, hd, hne]
  · simp [docEntry, pyOrStr, hd, hs]

/-- Witness for the amended claim C9 at concrete inputs: both branches of
the fallback chain. -/
theorem docEntry_fallback_chain_witness :
    docEntry ⟨Option.none, ['x']⟩ = pyStrip ['x'] ∧
    docEntry ⟨Option.none, []⟩ = noDocMsg :=
  ⟨(docEntry_fallback_chain ⟨Option.none, ['x']⟩).1 rfl (by decide),
   (docEntry_fallback_chain ⟨Option.none, []⟩).2 rfl rfl⟩
